import Mathlib

/-!
Verification development for the `ask-panda-toolkit` repository, focused on the
task-status pipeline (`askpanda_mcp/tools/task_status.py`) and the Mistral LLM
provider client (`askpanda_mcp/llm/providers/mistral_client.py`).

The Python code is shallowly embedded: JSON/Python values are an inductive
type, environment lookups and network attempts are explicit oracles, and the
retry loops are structurally recursive functions that also record the sequence
of backoff sleeps and the number of network calls performed. String handling
(`\s`, `\d`, `\w`, `.lower()`, `.strip()`, `int()`) is modelled at ASCII
fidelity; numbers are modelled as integers.
-/

set_option maxHeartbeats 1000000

namespace AskPanda

/-- Python values as they reach the task-status helpers: the JSON shapes
(`null`, booleans, numbers-as-integers, strings, arrays, objects) plus the
extra Python shapes (`None` also doubles as "missing", and tuples) that the
defensively-typed helpers test for with `isinstance`. -/
inductive Val where
  | none : Val
  | bool : Bool → Val
  | int : Int → Val
  | str : String → Val
  | list : List Val → Val
  | dict : List (String × Val) → Val
  | tuple : List Val → Val

/-- Python truthiness (`bool(v)`) for the modelled values. -/
def Val.truthy : Val → Bool
  | .none => false
  | .bool b => b
  | .int n => n != 0
  | .str s => s != ""
  | .list l => !l.isEmpty
  | .dict d => !d.isEmpty
  | .tuple l => !l.isEmpty

/-- `isinstance(v, list)`. -/
def Val.isList : Val → Bool
  | .list _ => true
  | _ => false

/-- `isinstance(v, dict)`. -/
def Val.isDict : Val → Bool
  | .dict _ => true
  | _ => false

/-- `d.get(key)` on a Python dict: the value if present, else `None`.
Dict entries are kept in insertion order, as Python does. -/
def pyGet (entries : List (String × Val)) (key : String) : Val :=
  match entries.find? (fun e => e.1 == key) with
  | some e => e.2
  | Option.none => .none

/-- Python `a or b` (first operand if truthy, else second). -/
def pyOrV (a b : Val) : Val := if a.truthy then a else b

/-- `s.lower()`, at ASCII fidelity. -/
def lowerStr (s : String) : String := ⟨s.data.map Char.toLower⟩

def charsPrefixOf : List Char → List Char → Bool
  | [], _ => true
  | _ :: _, [] => false
  | a :: as, b :: bs => a == b && charsPrefixOf as bs

def charsInfixOf (needle : List Char) : List Char → Bool
  | [] => charsPrefixOf needle []
  | c :: rest => charsPrefixOf needle (c :: rest) || charsInfixOf needle rest

/-- Python `needle in hay` for strings. -/
def strContains (hay needle : String) : Bool := charsInfixOf needle.data hay.data

/-- The character class Python's `str.strip()` / `int(str)` / regex `\s`
treat as whitespace (ASCII part). -/
def isPySpace (c : Char) : Bool :=
  c == ' ' || c == '\t' || c == '\n' || c == '\r' || c == Char.ofNat 11 || c == Char.ofNat 12

def stripChars (l : List Char) : List Char :=
  ((l.dropWhile isPySpace).reverse.dropWhile isPySpace).reverse

/-- `s.strip()` (ASCII whitespace model). -/
def pyStrip (s : String) : String := ⟨stripChars s.data⟩

def digitsToNat (ds : List Char) : Nat :=
  ds.foldl (fun acc c => acc * 10 + (c.toNat - 48)) 0

/-- `int(s)` on a string: surrounding whitespace ignored, optional sign,
then a non-empty ASCII digit run; anything else is a `ValueError`
(modelled as `Option.none`).  Underscore digit grouping is not modelled. -/
def pyIntOfChars (l : List Char) : Option Int :=
  let t := stripChars l
  match t with
  | [] => Option.none
  | c :: rest =>
    let sd : Int × List Char :=
      if c == '+' then (1, rest) else if c == '-' then (-1, rest) else (1, t)
    if sd.2 ≠ [] ∧ sd.2.all Char.isDigit then some (sd.1 * (digitsToNat sd.2 : Int))
    else Option.none

/-- `int(v)`: ints pass through, bools coerce to 0/1, strings are parsed,
everything else raises `TypeError` (modelled as `Option.none`). -/
def pyIntOfVal : Val → Option Int
  | .int n => some n
  | .bool b => some (if b then 1 else 0)
  | .str s => pyIntOfChars s.data
  | _ => Option.none

/-- `collections.deque(maxlen := cap)` append: FIFO eviction of the oldest
entries once the capacity is exceeded. -/
def dequeAppend (cap : Nat) (q : List α) (x : α) : List α :=
  let q' := q ++ [x]
  if cap < q'.length then q'.drop (q'.length - cap) else q'

/-- `Counter[k] += 1`: increment in place if the key exists (dicts keep
insertion order), else append the key with count 1. -/
def bump : List (String × Nat) → String → List (String × Nat)
  | [], k => [(k, 1)]
  | (k', v) :: rest, k => if k' = k then (k', v + 1) :: rest else (k', v) :: bump rest k

/-- The single-quote character (written via its code point). -/
def sqChar : Char := Char.ofNat 39

def hexDigitChar (n : Nat) : Char :=
  if n < 10 then Char.ofNat (48 + n) else Char.ofNat (87 + n)

def hex2 (n : Nat) : String :=
  (hexDigitChar ((n / 16) % 16)).toString ++ (hexDigitChar (n % 16)).toString

/-- One character of Python `repr` of a string, given the chosen quote
character (ASCII fidelity: control characters become `\xNN`). -/
def reprStrChar (q : Char) (c : Char) : String :=
  if c == '\\' then "\\\\"
  else if c == q then "\\" ++ q.toString
  else if c == '\n' then "\\n"
  else if c == '\r' then "\\r"
  else if c == '\t' then "\\t"
  else if c.toNat < 32 || c.toNat == 127 then "\\x" ++ hex2 c.toNat
  else c.toString

/-- Python `repr` of a string: single quotes unless the string contains a
single quote and no double quote. -/
def pyReprStr (s : String) : String :=
  let hasSq := s.data.contains sqChar
  let hasDq := s.data.contains '"'
  let q := if hasSq && !hasDq then '"' else sqChar
  q.toString ++ String.join (s.data.map (reprStrChar q)) ++ q.toString

mutual

/-- Python `repr` of a value (ASCII fidelity for string escapes). -/
def pyRepr : Val → String
  | .none => "None"
  | .bool b => if b then "True" else "False"
  | .int n => toString n
  | .str s => pyReprStr s
  | .list l => "[" ++ pyReprJoin l ++ "]"
  | .tuple [] => "()"
  | .tuple [v] => "(" ++ pyRepr v ++ ",)"
  | .tuple (v :: w :: rest) => "(" ++ pyReprJoin (v :: w :: rest) ++ ")"
  | .dict d => "\x7b" ++ pyReprEntries d ++ "\x7d"

def pyReprJoin : List Val → String
  | [] => ""
  | [v] => pyRepr v
  | v :: w :: rest => pyRepr v ++ ", " ++ pyReprJoin (w :: rest)

def pyReprEntries : List (String × Val) → String
  | [] => ""
  | [(k, v)] => pyReprStr k ++ ": " ++ pyRepr v
  | (k, v) :: e :: rest => pyReprStr k ++ ": " ++ pyRepr v ++ ", " ++ pyReprEntries (e :: rest)

end

/-- Python `str(v)`: identity on strings, `repr` otherwise (`None`/bools/ints
print as `None`/`True`/`False`/decimal). -/
def pyStr : Val → String
  | .str s => s
  | v => pyRepr v

/-- The status label of one job dict, from `_process_jobs` line 140:
`str(job.get("jobstatus") or job.get("status") or "unknown")`. -/
def jobStatusLabel (entries : List (String × Val)) : String :=
  pyStr (pyOrV (pyGet entries "jobstatus") (pyOrV (pyGet entries "status") (.str "unknown")))

/-- One iteration of the error-field scan in `_process_jobs` (source lines
144-154): a field whose lowered name contains `"errorcode"` contributes
`int(v)` when that parses and is strictly positive (ring capacity 50); a
field whose lowered name contains `"errordiag"` with a non-blank string
value contributes the stripped string (ring capacity 20). -/
def fieldStep (st : List Int × List String) (kv : String × Val) : List Int × List String :=
  let lk := lowerStr kv.1
  let st1 :=
    if strContains lk "errorcode" then
      match pyIntOfVal kv.2 with
      | some iv => if 0 < iv then (dequeAppend 50 st.1 iv, st.2) else st
      | Option.none => st
    else st
  if strContains lk "errordiag" then
    match kv.2 with
    | .str s => if pyStrip s ≠ "" then (st1.1, dequeAppend 20 st1.2 (pyStrip s)) else st1
    | _ => st1
  else st1

/-- One iteration of the job loop in `_process_jobs` (source lines 137-154):
non-dict entries are skipped; a dict entry bumps its status label's count and
is scanned field by field for error codes/diagnostics. -/
def jobStep (st : List (String × Nat) × List Int × List String) (job : Val) :
    List (String × Nat) × List Int × List String :=
  match job with
  | .dict entries =>
    let counts := bump st.1 (jobStatusLabel entries)
    let ed := entries.foldl fieldStep (st.2.1, st.2.2)
    (counts, ed.1, ed.2)
  | _ => st

/-- The de-duplication loop at the end of `_process_jobs` (source lines
156-163): keep the first occurrence of each diagnostic, tracked by a seen
set. -/
def dedupSeen (seen : List String) : List String → List String
  | [] => []
  | d :: rest => if d ∈ seen then dedupSeen seen rest else d :: dedupSeen (d :: seen) rest

/-- `_process_jobs(jobs)`: iterate the jobs only when `jobs` is a list, then
de-duplicate the diagnostics ring. Returns (job_counts, error_codes,
error_diags). -/
def _process_jobs (jobs : Val) : List (String × Nat) × List Int × List String :=
  let st :=
    match jobs with
    | .list l => l.foldl jobStep ([], [], [])
    | _ => ([], [], [])
  (st.1, st.2.1, dedupSeen [] st.2.2)

/-- `_extract_task_info(payload)`: first element of a non-empty `task` list
when that element is a dict; else the `task` dict itself; else nothing. -/
def _extract_task_info (payload : List (String × Val)) : Option (List (String × Val)) :=
  match pyGet payload "task" with
  | .list (first :: _) =>
    match first with
    | .dict e => some e
    | _ => Option.none
  | .dict e => some e
  | _ => Option.none

/-- `_try_status(*candidates)`: first truthy candidate as a string, else
`"unknown"`. -/
def _try_status : List Val → String
  | [] => "unknown"
  | c :: rest => if c.truthy then pyStr c else _try_status rest

/-- `s.rstrip("/")`. -/
def rstripSlash (s : String) : String := ⟨(s.data.reverse.dropWhile (· == '/')).reverse⟩

/-- `_panda_base_url()`: the `PANDA_BASE_URL` environment variable (default
`https://bigpanda.cern.ch`), with trailing slashes stripped. -/
def _panda_base_url (env : String → Option String) : String :=
  rstripSlash ((env "PANDA_BASE_URL").getD "https://bigpanda.cern.ch")

/-- The normalized task summary (`TaskSummary` dataclass). -/
structure TaskSummary where
  task_id : Int
  status : String
  job_counts : List (String × Nat)
  error_codes : List Int
  error_diags : List String
  monitor_url : String

/-- `_summarize_task(task_id, payload)`. -/
def _summarize_task (env : String → Option String) (task_id : Int)
    (payload : List (String × Val)) : TaskSummary :=
  let base := _panda_base_url env
  let monitor_url := base ++ "/task/" ++ toString task_id ++ "/"
  let ti := (_extract_task_info payload).getD []
  let status := _try_status
    [pyGet ti "taskstatus", pyGet ti "status", pyGet payload "taskstatus", pyGet payload "status"]
  let pj := _process_jobs (pyGet payload "jobs")
  { task_id := task_id, status := status, job_counts := pj.1,
    error_codes := pj.2.1, error_diags := pj.2.2, monitor_url := monitor_url }

/-- Regex `\w` (ASCII model): letters, digits, underscore. -/
def isWordChar (c : Char) : Bool := c.isAlphanum || c == '_'

/-- Whether the regex `\btask\s+(\d+)\b` (IGNORECASE) matches at position `i`
of the text, and if so the captured integer.  The `\s+`/`\d+` runs are
maximal; backtracking cannot produce any other match at `i` because a shorter
digit run is followed by a digit, which is a word character. -/
def matchTaskAt (cs : List Char) (i : Nat) : Option Nat :=
  let boundaryBefore : Bool :=
    match i, cs.get? (i - 1) with
    | 0, _ => true
    | _ + 1, some c => !isWordChar c
    | _ + 1, Option.none => false
  let rest := cs.drop i
  if boundaryBefore && ((rest.take 4).map Char.toLower == ['t', 'a', 's', 'k']) then
    let after := rest.drop 4
    let ws := after.takeWhile isPySpace
    let afterWs := after.drop ws.length
    let ds := afterWs.takeWhile Char.isDigit
    let afterDs := afterWs.drop ds.length
    let boundaryAfter : Bool :=
      match afterDs with
      | [] => true
      | c :: _ => !isWordChar c
    if !ws.isEmpty && !ds.isEmpty && boundaryAfter then some (digitsToNat ds) else Option.none
  else Option.none

def searchTaskAux (cs : List Char) (i : Nat) : Nat → Option Nat
  | 0 => Option.none
  | fuel + 1 =>
    match matchTaskAt cs i with
    | some n => some n
    | Option.none => searchTaskAux cs (i + 1) fuel

/-- `extract_task_id_from_text(text)`: `_TASK_ID_RE.search(text or "")`,
scanning match positions left to right, then `int` of the digit capture
(which cannot raise `ValueError` on an ASCII digit run). `Option.none` input
models a `None`-like falsy argument. -/
def extract_task_id_from_text (text : Option String) : Option Nat :=
  let s := text.getD ""
  searchTaskAux s.data 0 (s.data.length + 1)

/-- The exceptions an attempt of `_fetch_task_metadata` can raise:
`httpx.HTTPError` (transport error or `raise_for_status`) or `ValueError`
(undecodable or non-dict body). -/
inductive FetchError where
  | httpError : String → FetchError
  | valueError : String → FetchError

/-- The retry loop of `_fetch_task_metadata` (source lines 100-114).
`outcomes i` is the oracle result of HTTP attempt `i`; the second component
collects the `asyncio.sleep` backoff durations, in order. -/
def fetchLoop (outcomes : Nat → Except FetchError (List (String × Val))) (backoff : ℚ) :
    Nat → Nat → Except FetchError (List (String × Val)) × List ℚ
  | attempt, remaining =>
    match outcomes attempt, remaining with
    | .ok d, _ => (.ok d, [])
    | .error e, 0 => (.error e, [])
    | .error _, r + 1 =>
      let rest := fetchLoop outcomes backoff (attempt + 1) r
      (rest.1, backoff * 2 ^ attempt :: rest.2)

/-- `_fetch_task_metadata`: up to `retries + 1` sequential attempts.  The
environment defaults are `retries = int("2")` and `backoff = float("0.8")`
(i.e. 4/5). -/
def _fetch_task_metadata (retries : Nat) (backoff : ℚ)
    (outcomes : Nat → Except FetchError (List (String × Val))) :
    Except FetchError (List (String × Val)) × List ℚ :=
  fetchLoop outcomes backoff 0 retries

def hex4 (n : Nat) : String :=
  (hexDigitChar ((n / 4096) % 16)).toString ++ (hexDigitChar ((n / 256) % 16)).toString ++
  (hexDigitChar ((n / 16) % 16)).toString ++ (hexDigitChar (n % 16)).toString

def jsonUEscape (n : Nat) : String :=
  if n < 65536 then "\\u" ++ hex4 n
  else
    let m := n - 65536
    "\\u" ++ hex4 (55296 + m / 1024) ++ "\\u" ++ hex4 (56320 + m % 1024)

/-- One character of `json.dumps` string escaping (`ensure_ascii=True`):
characters outside the printable ASCII range become `\uXXXX`. -/
def jsonEscapeChar (c : Char) : String :=
  if c == '"' then "\\\""
  else if c == '\\' then "\\\\"
  else if c == '\n' then "\\n"
  else if c == '\r' then "\\r"
  else if c == '\t' then "\\t"
  else if c.toNat == 8 then "\\b"
  else if c.toNat == 12 then "\\f"
  else if c.toNat < 32 || 127 ≤ c.toNat then jsonUEscape c.toNat
  else c.toString

def jsonQuote (s : String) : String := "\"" ++ String.join (s.data.map jsonEscapeChar) ++ "\""

def indentStr (level : Nat) : String := ⟨List.replicate (2 * level) ' '⟩

mutual

/-- `json.dumps(v, indent=2)` at nesting depth `level` (tuples serialize as
arrays; our values are always serializable, so the `TypeError` branch of
`_format_payload_debug` is unreachable). -/
def dumpsVal (level : Nat) : Val → String
  | .none => "null"
  | .bool b => if b then "true" else "false"
  | .int n => toString n
  | .str s => jsonQuote s
  | .list [] => "[]"
  | .list (v :: rest) =>
    "[\n" ++ dumpsItems (level + 1) (v :: rest) ++ "\n" ++ indentStr level ++ "]"
  | .tuple [] => "[]"
  | .tuple (v :: rest) =>
    "[\n" ++ dumpsItems (level + 1) (v :: rest) ++ "\n" ++ indentStr level ++ "]"
  | .dict [] => "\x7b\x7d"
  | .dict (e :: rest) =>
    "\x7b\n" ++ dumpsEntries (level + 1) (e :: rest) ++ "\n" ++ indentStr level ++ "\x7d"

def dumpsItems (level : Nat) : List Val → String
  | [] => ""
  | [v] => indentStr level ++ dumpsVal level v
  | v :: w :: rest => indentStr level ++ dumpsVal level v ++ ",\n" ++ dumpsItems level (w :: rest)

def dumpsEntries (level : Nat) : List (String × Val) → String
  | [] => ""
  | [(k, v)] => indentStr level ++ jsonQuote k ++ ": " ++ dumpsVal level v
  | (k, v) :: e :: rest =>
    indentStr level ++ jsonQuote k ++ ": " ++ dumpsVal level v ++ ",\n" ++ dumpsEntries level (e :: rest)

end

def pyJsonDumpsIndent2 (v : Val) : String := dumpsVal 0 v

/-- Python string slicing `s[:n]` (also used for `raw[:5000]`). -/
def pyTake (s : String) (n : Nat) : String := ⟨s.data.take n⟩

def charListLt : List Char → List Char → Bool
  | [], [] => false
  | [], _ :: _ => true
  | _ :: _, [] => false
  | a :: as, b :: bs => if a == b then charListLt as bs else decide (a < b)

/-- Python `<` on strings: code-point lexicographic. -/
def strLt (a b : String) : Bool := charListLt a.data b.data

/-- Stable insertion: place `x` before the first element strictly greater
than it, i.e. after any elements comparing equal — the stability contract of
Python `sorted`. -/
def pyInsert (lt : α → α → Bool) (x : α) : List α → List α
  | [] => [x]
  | y :: rest => if lt x y then x :: y :: rest else y :: pyInsert lt x rest

/-- Python `sorted(l)` with strict comparison `lt` (stable). -/
def pySorted (lt : α → α → Bool) (l : List α) : List α :=
  l.foldl (fun acc x => pyInsert lt x acc) []

/-- `_format_payload_debug(payload)`: the payload's sorted top-level keys
(formatted as Python prints a list of strings) and a ≤5000-character
pretty-printed JSON snippet. -/
def _format_payload_debug (payload : List (String × Val)) : List String :=
  ["Payload keys: " ++ pyStr (.list ((pySorted strLt (payload.map Prod.fst)).map Val.str))] ++
  ["\nRaw payload (snippet):\n", pyTake (pyJsonDumpsIndent2 (.dict payload)) 5000]

/-- Comparison used by `_format_job_counts`: `key=lambda kv: (-kv[1], kv[0])`. -/
def jcLt (a b : String × Nat) : Bool :=
  decide (b.2 < a.2) || (a.2 == b.2 && strLt a.1 b.1)

/-- `_format_job_counts(job_counts)`. -/
def _format_job_counts (job_counts : List (String × Nat)) : List String :=
  if !job_counts.isEmpty then
    "Job counts:" :: (pySorted jcLt job_counts).map (fun p => "- " ++ p.1 ++ ": " ++ toString p.2)
  else ["Job counts: (not available in metadata)"]

/-- `Counter[k] += 1` over integer keys. -/
def bumpInt : List (Int × Nat) → Int → List (Int × Nat)
  | [], k => [(k, 1)]
  | (k', v) :: rest, k => if k' = k then (k', v + 1) :: rest else (k', v) :: bumpInt rest k

/-- `Counter(error_codes)`. -/
def counterOf (l : List Int) : List (Int × Nat) := l.foldl bumpInt []

/-- `_format_error_codes_and_diags(error_codes, error_diags)`: the 10 most
frequent codes with counts, then up to 10 diagnostics with newlines collapsed
to spaces and truncation to 400 characters. -/
def _format_error_codes_and_diags (error_codes : List Int) (error_diags : List String) :
    List String :=
  let l1 : List String :=
    if !error_codes.isEmpty then
      "Recent error codes (sample):" ::
        ((pySorted (fun a b : Int × Nat => decide (b.2 < a.2)) (counterOf error_codes)).take 10).map
          (fun p => "- " ++ toString p.1 ++ ": " ++ toString p.2) ++ [""]
    else []
  let l2 : List String :=
    if !error_diags.isEmpty then
      "Recent error diagnostics (sample):" ::
        (error_diags.take 10).map (fun d =>
          let d1 := pyStrip ⟨d.data.map (fun c => if c == '\n' then ' ' else c)⟩
          "- " ++ (if 400 < d1.data.length then pyTake d1 400 ++ "..." else d1)) ++ [""]
    else []
  l1 ++ l2

/-- `has_task` (source line 337): the payload's `task` field is truthy and a
list or dict. -/
def hasTaskBlock (payload : List (String × Val)) : Bool :=
  (pyGet payload "task").truthy && ((pyGet payload "task").isList || (pyGet payload "task").isDict)

/-- `has_jobs` (source line 338): the payload's `jobs` field is a non-empty
list. -/
def hasJobsBlock (payload : List (String × Val)) : Bool :=
  match pyGet payload "jobs" with
  | .list l => !l.isEmpty
  | _ => false

/-- The body of `PandaTaskStatusTool.call` after a successful metadata fetch
(source lines 306-365): not-found detection, then either the debug dump or
the full status/job-count/error report, joined with newlines.  The fetched
payload is always a dict, so the `isinstance(payload, dict)` guards hold. -/
def renderCall (env : String → Option String) (task_id : Int)
    (payload : List (String × Val)) (include_raw₀ : Bool) : String :=
  let include_raw := include_raw₀ || ((env "ASKPANDA_PANDA_DEBUG").getD "") == "1"
  let summary := _summarize_task env task_id payload
  let has_task := hasTaskBlock payload
  let has_jobs := hasJobsBlock payload
  if !has_task && !has_jobs then
    String.intercalate "\n"
      (("Task " ++ toString task_id ++ " was not found (no metadata returned). Monitor: " ++
          summary.monitor_url) :: _format_payload_debug payload)
  else
    String.intercalate "\n"
      (["Task " ++ toString summary.task_id, "Status: " ++ summary.status,
        "Monitor: " ++ summary.monitor_url, ""]
        ++ _format_job_counts summary.job_counts ++ [""]
        ++ _format_error_codes_and_diags summary.error_codes summary.error_diags
        ++ (if !include_raw && summary.status == "unknown" then _format_payload_debug payload
            else [])
        ++ (if include_raw then
              ["Raw payload:\n", pyTake (pyJsonDumpsIndent2 (.dict payload)) 200000]
            else []))

namespace Mistral

/-- The part of `ModelSpec` the Mistral client reads: the target model
identifier and the optional name of the environment variable holding the
credential. -/
structure ModelSpec where
  model : String
  api_key_env : Option String

/-- Exceptions flowing through `MistralLLMClient.generate`.  The three `llm*`
constructors are modelled from the spec: the repository's
`askpanda_mcp/llm/exceptions.py` is not in the sources; per the spec's error
taxonomy, `ConfigError` (`LLMConfigError`), `TimeoutError`
(`LLMTimeoutError`) and `ProviderError` (`LLMProviderError`, wrapping the
last cause) are distinct typed failures.  `asyncioTimeout` is
`asyncio.TimeoutError`; `other` is any other exception raised by the SDK
call. -/
inductive Exc where
  | llmConfig : String → Exc
  | llmTimeout : String → Exc
  | llmProvider : String → Option Exc → Exc
  | asyncioTimeout : String → Exc
  | other : String → Exc

/-- Whether an exception is an `asyncio.TimeoutError` — the only class the
first `except` clause of the retry loop catches. -/
def Exc.isAsyncTimeout : Exc → Bool
  | .asyncioTimeout _ => true
  | _ => false

/-- Python `str(exc)` for the modelled exceptions: the message. -/
def excStr : Exc → String
  | .llmConfig m => m
  | .llmTimeout m => m
  | .llmProvider m _ => m
  | .asyncioTimeout m => m
  | .other m => m

/-- `f"{last_err!s}"` where `last_err: Optional[Exception]`. -/
def optExcStr : Option Exc → String
  | some e => excStr e
  | Option.none => "None"

/-- Credential resolution in `_get_client` (source lines 44-50): read the
`ModelSpec.api_key_env` variable when that attribute is truthy, else
`MISTRAL_API_KEY`; a missing or empty result means no credential. -/
def resolveApiKey (env : String → Option String) (spec : ModelSpec) : Option String :=
  let raw :=
    match spec.api_key_env with
    | some v => if v ≠ "" then env v else env "MISTRAL_API_KEY"
    | Option.none => env "MISTRAL_API_KEY"
  match raw with
  | some k => if k = "" then Option.none else some k
  | Option.none => Option.none

/-- Outcome of one `client.chat.complete_async` network call: the message
content of the first choice (possibly `None`), or a raised exception. -/
inductive NetOutcome where
  | ok : Option String → NetOutcome
  | exn : Exc → NetOutcome

/-- The normalized response (`LLMResponse`), restricted to the text field
(usage extraction is best-effort and not modelled). -/
structure LLMResponse where
  text : String
  deriving DecidableEq

/-- The retry loop of `MistralLLMClient.generate` (source lines 110-155),
returning (result, backoff sleeps, number of network calls).  Each iteration
first runs `_get_client`: with no resolvable credential it raises
`LLMConfigError`, which the generic `except Exception` handler catches — so
the iteration sleeps and retries without any network call.  With a
credential, the network call's `asyncio.TimeoutError` is re-raised
immediately as `LLMTimeoutError`; any other exception is retried after a
sleep of the current backoff, which then doubles.  An exhausted loop raises
`LLMProviderError` wrapping the last error. -/
def genLoop (hasKey : Bool) (net : Nat → NetOutcome) (backoff : ℚ)
    (attempt : Nat) (lastErr : Option Exc) :
    Nat → Except Exc LLMResponse × List ℚ × Nat
  | 0 =>
    (.error (.llmProvider ("Mistral error after retries: " ++ optExcStr lastErr) lastErr), [], 0)
  | n + 1 =>
    if hasKey then
      match net attempt with
      | .ok content => (.ok ⟨pyStrip (content.getD "")⟩, [], 1)
      | .exn e =>
        match e with
        | .asyncioTimeout m => (.error (.llmTimeout m), [], 1)
        | e' =>
          let rest := genLoop hasKey net backoff (attempt + 1) (some e') n
          (rest.1, backoff * 2 ^ attempt :: rest.2.1, rest.2.2 + 1)
    else
      let e := Exc.llmConfig "MISTRAL_API_KEY is not set in the environment."
      let rest := genLoop hasKey net backoff (attempt + 1) (some e) n
      (rest.1, backoff * 2 ^ attempt :: rest.2.1, rest.2.2)

/-- `MistralLLMClient.generate`: the empty-model guard (source line 100),
then the retry loop.  `tries` defaults to `int("3")` and `backoff` to
`float("1.0")`; `net i` is the oracle outcome of the `i`-th
`chat.complete_async` call. -/
def generate (spec : ModelSpec) (env : String → Option String) (tries : Nat) (backoff : ℚ)
    (net : Nat → NetOutcome) : Except Exc LLMResponse × List ℚ × Nat :=
  if spec.model = "" then
    (.error (.llmConfig "ModelSpec.model is empty for Mistral provider."), [], 0)
  else
    genLoop (resolveApiKey env spec).isSome net backoff 0 Option.none tries

end Mistral

/-! ## Theorems -/

/-- C10: for every jobs value that is not a Python list — including `None`, a
dict, a string, or a tuple, even though strings and tuples are sequences —
`_process_jobs` returns empty job counts, empty error codes and empty error
diagnostics (and, being total, does not raise). -/
theorem C10_process_jobs_non_list (jobs : Val) (h : jobs.isList = false) :
    _process_jobs jobs = ([], [], []) := by
  cases jobs <;> simp_all [_process_jobs, Val.isList, dedupSeen]

theorem C10_process_jobs_non_list_witness :
    Val.isList (.tuple [.dict [("jobstatus", Val.str "failed")]]) = false ∧
      _process_jobs (.tuple [.dict [("jobstatus", Val.str "failed")]]) = ([], [], []) :=
  ⟨rfl, C10_process_jobs_non_list _ rfl⟩

/-- C4: the summarizer resolves the task status as the first truthy candidate
in the fixed order task_info.taskstatus, task_info.status, payload.taskstatus,
payload.status, else `"unknown"`; and for
`payload = {"task": {"taskstatus": "running"}, "status": "done"}` (so
task_info is `{"taskstatus": "running"}`) the resolved status is
`"running"`. -/
theorem C4_status_resolution_order :
    (∀ c1 c2 c3 c4 : Val,
      (c1.truthy = true → _try_status [c1, c2, c3, c4] = pyStr c1) ∧
      (c1.truthy = false → c2.truthy = true → _try_status [c1, c2, c3, c4] = pyStr c2) ∧
      (c1.truthy = false → c2.truthy = false → c3.truthy = true →
        _try_status [c1, c2, c3, c4] = pyStr c3) ∧
      (c1.truthy = false → c2.truthy = false → c3.truthy = false → c4.truthy = true →
        _try_status [c1, c2, c3, c4] = pyStr c4) ∧
      (c1.truthy = false → c2.truthy = false → c3.truthy = false → c4.truthy = false →
        _try_status [c1, c2, c3, c4] = "unknown")) ∧
    (∀ (env : String → Option String) (tid : Int) (payload : List (String × Val)),
      (_summarize_task env tid payload).status =
        _try_status [pyGet ((_extract_task_info payload).getD []) "taskstatus",
          pyGet ((_extract_task_info payload).getD []) "status",
          pyGet payload "taskstatus", pyGet payload "status"]) ∧
    (_summarize_task (fun _ => Option.none) 1
        [("task", .dict [("taskstatus", .str "running")]), ("status", .str "done")]).status =
      "running" := by
  refine ⟨?_, fun env tid payload => rfl, rfl⟩
  intro c1 c2 c3 c4
  refine ⟨?_, ?_, ?_, ?_, ?_⟩ <;> intros <;> simp_all [_try_status]

theorem C4_status_resolution_order_witness :
    _try_status [Val.str "", Val.str "done", Val.none, Val.none] = "done" :=
  (C4_status_resolution_order.1 (Val.str "") (Val.str "done") Val.none Val.none).2.1 rfl rfl

/-- C5: on the spec's example jobs list the result is
`job_counts = {"failed": 2, "finished": 1}`, `error_codes = (191,)`,
`error_diags = ("disk full",)`; and, per field of a dict-shaped job, the scan
is case-insensitive in the field name, a non-numeric error-code value leaves
the state unchanged (it never aborts processing), a parsed error code is
appended only when strictly positive, and a non-blank string under an
`errordiag` field name is appended trimmed. -/
theorem C5_error_field_scan :
    _process_jobs (.list [
        .dict [("jobstatus", .str "failed"), ("errorCode_pilot", .str "191"),
               ("errorDiag_x", .str "  disk full  ")],
        .dict [("jobstatus", .str "failed")],
        .dict [("jobstatus", .str "finished")]]) =
      ([("failed", 2), ("finished", 1)], [191], ["disk full"]) ∧
    (∀ (st : List Int × List String) (k k' : String) (v : Val),
      lowerStr k = lowerStr k' → fieldStep st (k, v) = fieldStep st (k', v)) ∧
    (∀ (st : List Int × List String) (k : String) (v : Val),
      strContains (lowerStr k) "errordiag" = false → pyIntOfVal v = Option.none →
      fieldStep st (k, v) = st) ∧
    (∀ (st : List Int × List String) (k : String) (v : Val) (i : Int),
      strContains (lowerStr k) "errorcode" = true →
      strContains (lowerStr k) "errordiag" = false →
      pyIntOfVal v = some i →
      fieldStep st (k, v) = if 0 < i then (dequeAppend 50 st.1 i, st.2) else st) ∧
    (∀ (st : List Int × List String) (k : String) (s : String),
      strContains (lowerStr k) "errordiag" = true →
      strContains (lowerStr k) "errorcode" = false →
      pyStrip s ≠ "" →
      fieldStep st (k, .str s) = (st.1, dequeAppend 20 st.2 (pyStrip s))) := by
  refine ⟨rfl, ?_, ?_, ?_, ?_⟩
  · intro st k k' v h
    simp only [fieldStep, h]
  · intro st k v h1 h2
    simp [fieldStep, h1, h2]
  · intro st k v i h1 h2 h3
    simp [fieldStep, h1, h2, h3]
  · intro st k s h1 h2 h3
    simp [fieldStep, h1, h2, h3]

theorem C5_error_field_scan_witness :
    fieldStep ([], []) ("ErrorCode", .str "abc") = ([], []) :=
  C5_error_field_scan.2.2.1 ([], []) "ErrorCode" (.str "abc") rfl rfl

/-- The dict-shaped entries of a jobs value — exactly the entries
`_process_jobs` counts. -/
def dictJobs : Val → List (List (String × Val))
  | .list l =>
    l.filterMap (fun j =>
      match j with
      | .dict e => some e
      | _ => Option.none)
  | _ => []

/-- `sum(job_counts.values())`. -/
def sumCounts (c : List (String × Nat)) : Nat := (c.map Prod.snd).sum

theorem bump_sum (c : List (String × Nat)) (k : String) :
    sumCounts (bump c k) = sumCounts c + 1 := by
  induction c with
  | nil => simp [bump, sumCounts]
  | cons p rest ih =>
    obtain ⟨k', v⟩ := p
    simp only [bump]
    split
    · simp only [sumCounts, List.map_cons, List.sum_cons]
      omega
    · simp only [sumCounts, List.map_cons, List.sum_cons] at ih ⊢
      omega

theorem bump_keys (c : List (String × Nat)) (k s : String) :
    (∃ p ∈ bump c k, p.1 = s) ↔ (∃ p ∈ c, p.1 = s) ∨ s = k := by
  induction c with
  | nil => simp [bump, eq_comm]
  | cons p rest ih =>
    obtain ⟨k', v⟩ := p
    simp only [bump]
    split
    · subst k
      simp
      tauto
    · simp only [List.mem_cons] at *
      constructor
      · rintro ⟨q, hq | hq, hs⟩
        · subst hq
          exact Or.inl ⟨(k', v), Or.inl rfl, hs⟩
        · rcases ih.mp ⟨q, hq, hs⟩ with h | h
          · rcases h with ⟨r, hr, hrs⟩
            exact Or.inl ⟨r, Or.inr hr, hrs⟩
          · exact Or.inr h
      · rintro (⟨q, hq | hq, hs⟩ | h)
        · subst hq
          exact ⟨(k', v), Or.inl rfl, hs⟩
        · rcases ih.mpr (Or.inl ⟨q, hq, hs⟩) with ⟨r, hr, hrs⟩
          exact ⟨r, Or.inr hr, hrs⟩
        · rcases ih.mpr (Or.inr h) with ⟨r, hr, hrs⟩
          exact ⟨r, Or.inr hr, hrs⟩

theorem bump_pos (c : List (String × Nat)) (k : String) (h : ∀ p ∈ c, 1 ≤ p.2) :
    ∀ p ∈ bump c k, 1 ≤ p.2 := by
  induction c with
  | nil =>
    intro p hp
    simp [bump] at hp
    simp [hp]
  | cons q rest ih =>
    obtain ⟨k', v⟩ := q
    simp only [bump]
    split
    · intro p hp
      rcases List.mem_cons.mp hp with h' | h'
      · simp [h']
      · exact h p (List.mem_cons_of_mem _ h')
    · intro p hp
      rcases List.mem_cons.mp hp with h' | h'
      · subst h'
        exact h (k', v) (List.mem_cons_self _ _)
      · exact ih (fun q hq => h q (List.mem_cons_of_mem _ hq)) p h'

theorem foldl_bump_sum (ks : List String) :
    ∀ c, sumCounts (ks.foldl bump c) = sumCounts c + ks.length := by
  induction ks with
  | nil => simp
  | cons k rest ih =>
    intro c
    simp only [List.foldl_cons, ih, bump_sum, List.length_cons]
    omega

theorem foldl_bump_keys (ks : List String) :
    ∀ c s, (∃ p ∈ ks.foldl bump c, p.1 = s) ↔ (∃ p ∈ c, p.1 = s) ∨ s ∈ ks := by
  induction ks with
  | nil => simp
  | cons k rest ih =>
    intro c s
    simp only [List.foldl_cons, ih, bump_keys, List.mem_cons]
    exact or_assoc

theorem foldl_bump_pos (ks : List String) :
    ∀ c, (∀ p ∈ c, 1 ≤ p.2) → ∀ p ∈ ks.foldl bump c, 1 ≤ p.2 := by
  induction ks with
  | nil => exact fun c h => h
  | cons k rest ih => exact fun c h => ih _ (bump_pos c k h)

/-- The first component of the `_process_jobs` fold is the status-count fold
over the dict-shaped entries. -/
theorem foldl_jobStep_counts (l : List Val) :
    ∀ st : List (String × Nat) × List Int × List String,
      (l.foldl jobStep st).1 =
        ((l.filterMap (fun j =>
            match j with
            | .dict e => some e
            | _ => Option.none)).map jobStatusLabel).foldl bump st.1 := by
  induction l with
  | nil => intro st; rfl
  | cons j rest ih =>
    intro st
    cases j <;>
      simp only [List.foldl_cons, List.filterMap_cons, List.map_cons, ih, jobStep]

/-- C2: `job_counts` maps each resolved status label to a count ≥ 1, its keys
are exactly the resolved labels of the dict-shaped job entries (first truthy
of `jobstatus`, `status`, else `"unknown"`), and the counts sum to the number
of dict-shaped entries. -/
theorem C2_job_counts_invariant (jobs : Val) :
    (∀ p ∈ (_process_jobs jobs).1, 1 ≤ p.2) ∧
    (∀ s : String,
      (∃ p ∈ (_process_jobs jobs).1, p.1 = s) ↔ s ∈ (dictJobs jobs).map jobStatusLabel) ∧
    sumCounts (_process_jobs jobs).1 = (dictJobs jobs).length := by
  cases jobs with
  | list l =>
    have hc : (_process_jobs (.list l)).1 =
        ((dictJobs (.list l)).map jobStatusLabel).foldl bump [] := by
      simp only [_process_jobs, dictJobs]
      exact foldl_jobStep_counts l ([], [], [])
    rw [hc]
    refine ⟨foldl_bump_pos _ [] (by simp), fun s => ?_, ?_⟩
    · rw [foldl_bump_keys]
      simp
    · rw [foldl_bump_sum]
      simp [sumCounts]
  | none => exact ⟨by simp [_process_jobs, dedupSeen], by simp [_process_jobs, dedupSeen, dictJobs], by simp [_process_jobs, dedupSeen, dictJobs, sumCounts]⟩
  | bool b => exact ⟨by simp [_process_jobs, dedupSeen], by simp [_process_jobs, dedupSeen, dictJobs], by simp [_process_jobs, dedupSeen, dictJobs, sumCounts]⟩
  | int n => exact ⟨by simp [_process_jobs, dedupSeen], by simp [_process_jobs, dedupSeen, dictJobs], by simp [_process_jobs, dedupSeen, dictJobs, sumCounts]⟩
  | str s => exact ⟨by simp [_process_jobs, dedupSeen], by simp [_process_jobs, dedupSeen, dictJobs], by simp [_process_jobs, dedupSeen, dictJobs, sumCounts]⟩
  | dict d => exact ⟨by simp [_process_jobs, dedupSeen], by simp [_process_jobs, dedupSeen, dictJobs], by simp [_process_jobs, dedupSeen, dictJobs, sumCounts]⟩
  | tuple t => exact ⟨by simp [_process_jobs, dedupSeen], by simp [_process_jobs, dedupSeen, dictJobs], by simp [_process_jobs, dedupSeen, dictJobs, sumCounts]⟩

theorem C2_job_counts_invariant_witness :
    1 ≤ (("unknown", 1) : String × Nat).2 ∧
      sumCounts (_process_jobs (.list [.dict [], .str "x"])).1 =
        (dictJobs (.list [.dict [], .str "x"])).length :=
  ⟨(C2_job_counts_invariant (.list [.dict []])).1 ("unknown", 1) (by decide),
   (C2_job_counts_invariant _).2.2⟩

/-- The error code contributed by one job field, if any: field name contains
`"errorcode"` (case-insensitively), value parses as an integer, and that
integer is strictly positive. -/
def codeOf (kv : String × Val) : Option Int :=
  if strContains (lowerStr kv.1) "errorcode" then
    match pyIntOfVal kv.2 with
    | some i => if 0 < i then some i else Option.none
    | Option.none => Option.none
  else Option.none

/-- The diagnostic contributed by one job field, if any: field name contains
`"errordiag"` (case-insensitively) and the value is a non-blank string, which
is contributed stripped. -/
def diagOf (kv : String × Val) : Option String :=
  if strContains (lowerStr kv.1) "errordiag" then
    match kv.2 with
    | .str s => if pyStrip s ≠ "" then some (pyStrip s) else Option.none
    | _ => Option.none
  else Option.none

/-- The last `cap` elements of a list — the contents of a capacity-`cap`
FIFO ring after appending the whole list. -/
def keepLast (cap : Nat) (l : List α) : List α := l.drop (l.length - cap)

/-- All strictly positive error codes reported by the job list, oldest
first, before ring eviction. -/
def allCodes (jobs : Val) : List Int :=
  ((dictJobs jobs).map (fun e => e.filterMap codeOf)).flatten

/-- All stripped non-blank diagnostics reported by the job list, oldest
first, before ring eviction and de-duplication. -/
def allDiags (jobs : Val) : List String :=
  ((dictJobs jobs).map (fun e => e.filterMap diagOf)).flatten

/-- `fieldStep` acts componentwise: the code ring and the diag ring are
updated independently by `codeOf`/`diagOf`. -/
theorem fieldStep_eq (st : List Int × List String) (kv : String × Val) :
    fieldStep st kv =
      ((match codeOf kv with
        | some i => dequeAppend 50 st.1 i
        | Option.none => st.1),
       (match diagOf kv with
        | some d => dequeAppend 20 st.2 d
        | Option.none => st.2)) := by
  rcases st with ⟨c, d⟩
  rcases kv with ⟨k, v⟩
  simp only [fieldStep, codeOf, diagOf]
  by_cases h1 : strContains (lowerStr k) "errorcode" = true <;>
    by_cases h2 : strContains (lowerStr k) "errordiag" = true <;>
      cases v <;> simp_all
  all_goals try simp only [pyIntOfVal]
  all_goals repeat' (first | rfl | (refine ⟨?_, ?_⟩) | (split <;> try simp_all))

theorem keepLast_nil (cap : Nat) : keepLast cap ([] : List α) = [] := by
  simp [keepLast]

theorem keepLast_length (cap : Nat) (l : List α) :
    (keepLast cap l).length = min cap l.length := by
  simp only [keepLast, List.length_drop]
  omega

theorem keepLast_length_le (cap : Nat) (l : List α) : (keepLast cap l).length ≤ cap := by
  rw [keepLast_length]
  omega

theorem keepLast_subset (cap : Nat) (l : List α) : ∀ x ∈ keepLast cap l, x ∈ l :=
  fun _ hx => List.drop_subset _ _ hx

/-- Appending to a saturated FIFO ring keeps exactly the most recent `cap`
elements. -/
theorem dequeAppend_keepLast (cap : Nat) (l : List α) (x : α) :
    dequeAppend cap (keepLast cap l) x = keepLast cap (l ++ [x]) := by
  simp only [dequeAppend, keepLast]
  by_cases h : l.length < cap
  · have h0 : l.length - cap = 0 := by omega
    have h1 : ¬ cap < (l.drop (l.length - cap) ++ [x]).length := by
      simp only [List.length_append, List.length_drop, List.length_cons, List.length_nil]
      omega
    rw [if_neg h1, h0, List.drop_zero]
    have h2 : (l ++ [x]).length - cap = 0 := by
      simp only [List.length_append, List.length_cons, List.length_nil]
      omega
    rw [h2, List.drop_zero]
  · push_neg at h
    have hq : (l.drop (l.length - cap)).length = cap := by
      simp only [List.length_drop]
      omega
    have h1 : cap < (l.drop (l.length - cap) ++ [x]).length := by
      simp only [List.length_append, hq, List.length_cons, List.length_nil]
      omega
    rw [if_pos h1]
    have h2 : (l.drop (l.length - cap) ++ [x]).length - cap = 1 := by
      simp only [List.length_append, hq, List.length_cons, List.length_nil]
      omega
    rw [h2]
    rcases Nat.eq_zero_or_pos cap with hc | hc
    · subst hc
      have : l.length - 0 = l.length := by omega
      simp only [this, List.drop_length, List.nil_append]
      have : (l ++ [x]).length - 0 = (l ++ [x]).length := by omega
      rw [this, List.drop_length]
      rfl
    · rw [List.drop_append_of_le_length (by omega), List.drop_drop,
        List.drop_append_of_le_length (by simp only [List.length_append,
          List.length_cons, List.length_nil]; omega)]
      congr 2
      simp only [List.length_append, List.length_cons, List.length_nil]
      omega

/-- The field scan over one job acts on rings that hold the last 50/20
elements of unbounded logs by extending those logs with the job's
contributions. -/
theorem foldl_fieldStep_keepLast (entries : List (String × Val)) :
    ∀ (L : List Int) (M : List String),
      entries.foldl fieldStep (keepLast 50 L, keepLast 20 M) =
        (keepLast 50 (L ++ entries.filterMap codeOf),
         keepLast 20 (M ++ entries.filterMap diagOf)) := by
  induction entries with
  | nil => simp
  | cons kv rest ih =>
    intro L M
    rw [List.foldl_cons, fieldStep_eq]
    cases hc : codeOf kv with
    | none =>
      cases hd : diagOf kv with
      | none =>
        simp only [List.filterMap_cons, hc, hd]
        exact ih L M
      | some d0 =>
        simp only [List.filterMap_cons, hc, hd, dequeAppend_keepLast]
        simpa [List.append_assoc] using ih L (M ++ [d0])
    | some i0 =>
      cases hd : diagOf kv with
      | none =>
        simp only [List.filterMap_cons, hc, hd, dequeAppend_keepLast]
        simpa [List.append_assoc] using ih (L ++ [i0]) M
      | some d0 =>
        simp only [List.filterMap_cons, hc, hd, dequeAppend_keepLast]
        simpa [List.append_assoc] using ih (L ++ [i0]) (M ++ [d0])

/-- The job fold keeps the code/diag rings equal to the last 50/20 elements
of the full contribution logs. -/
theorem foldl_jobStep_rings (l : List Val) :
    ∀ (c : List (String × Nat)) (L : List Int) (M : List String),
      (l.foldl jobStep (c, keepLast 50 L, keepLast 20 M)).2 =
        (keepLast 50 (L ++ allCodes (.list l)), keepLast 20 (M ++ allDiags (.list l))) := by
  induction l with
  | nil => simp [allCodes, allDiags, dictJobs]
  | cons j rest ih =>
    intro c L M
    rw [List.foldl_cons]
    cases j with
    | dict e =>
      have hstep : jobStep (c, keepLast 50 L, keepLast 20 M) (.dict e) =
          (bump c (jobStatusLabel e),
           keepLast 50 (L ++ e.filterMap codeOf), keepLast 20 (M ++ e.filterMap diagOf)) := by
        simp only [jobStep]
        rw [foldl_fieldStep_keepLast]
      rw [hstep]
      have h2 := ih (bump c (jobStatusLabel e)) (L ++ e.filterMap codeOf)
        (M ++ e.filterMap diagOf)
      rw [h2]
      simp [allCodes, allDiags, dictJobs, List.append_assoc]
    | none => simpa [allCodes, allDiags, dictJobs, jobStep] using ih c L M
    | bool b => simpa [allCodes, allDiags, dictJobs, jobStep] using ih c L M
    | int n => simpa [allCodes, allDiags, dictJobs, jobStep] using ih c L M
    | str s => simpa [allCodes, allDiags, dictJobs, jobStep] using ih c L M
    | list l2 => simpa [allCodes, allDiags, dictJobs, jobStep] using ih c L M
    | tuple t => simpa [allCodes, allDiags, dictJobs, jobStep] using ih c L M

/-- The rings of `_process_jobs`: the codes are exactly the last 50 of the
full code log; the diags field is the de-duplication of the last 20 of the
full diag log. -/
theorem process_jobs_rings (jobs : Val) :
    (_process_jobs jobs).2.1 = keepLast 50 (allCodes jobs) ∧
      (_process_jobs jobs).2.2 = dedupSeen [] (keepLast 20 (allDiags jobs)) := by
  cases jobs with
  | list l =>
    have h := foldl_jobStep_rings l [] [] []
    simp only [keepLast_nil, List.nil_append] at h
    constructor
    · show (l.foldl jobStep ([], [], [])).2.1 = _
      rw [show (l.foldl jobStep ([], [], [])).2.1 =
        ((l.foldl jobStep ([], [], [])).2).1 from rfl, h]
    · show dedupSeen [] (l.foldl jobStep ([], [], [])).2.2 = _
      rw [show (l.foldl jobStep ([], [], [])).2.2 =
        ((l.foldl jobStep ([], [], [])).2).2 from rfl, h]
  | none => exact ⟨rfl, rfl⟩
  | bool b => exact ⟨rfl, rfl⟩
  | int n => exact ⟨rfl, rfl⟩
  | str s => exact ⟨rfl, rfl⟩
  | dict d => exact ⟨rfl, rfl⟩
  | tuple t => exact ⟨rfl, rfl⟩

/-- Reference first-occurrence de-duplication: keep each element and delete
its later duplicates. -/
def removeLater : List String → List String
  | [] => []
  | d :: rest => d :: removeLater (rest.filter (fun x => x != d))
termination_by l => l.length
decreasing_by
  simp only [List.length_cons]
  exact Nat.lt_succ_of_le (List.length_filter_le _ _)

theorem removeLater_mem : ∀ l : List String, ∀ x, x ∈ removeLater l ↔ x ∈ l := by
  intro l
  induction l using removeLater.induct with
  | case1 => simp [removeLater]
  | case2 d rest ih =>
    intro x
    rw [removeLater]
    simp only [List.mem_cons, ih, List.mem_filter]
    by_cases hx : x = d
    · simp [hx]
    · simp [hx]

theorem removeLater_nodup : ∀ l : List String, (removeLater l).Nodup := by
  intro l
  induction l using removeLater.induct with
  | case1 => simp [removeLater]
  | case2 d rest ih =>
    rw [removeLater]
    refine List.nodup_cons.mpr ⟨fun hmem => ?_, ih⟩
    rw [removeLater_mem, List.mem_filter] at hmem
    simp at hmem

theorem removeLater_length_card : ∀ l : List String,
    (removeLater l).length = l.toFinset.card := by
  intro l
  induction l using removeLater.induct with
  | case1 => simp [removeLater]
  | case2 d rest ih =>
    rw [removeLater]
    simp only [List.length_cons, ih]
    have hfil : (rest.filter (fun x => x != d)).toFinset = rest.toFinset.erase d := by
      ext x
      simp only [List.mem_toFinset, List.mem_filter, Finset.mem_erase, bne_iff_ne]
      exact and_comm
    rw [hfil, List.toFinset_cons]
    by_cases hd : d ∈ rest.toFinset
    · rw [Finset.insert_eq_self.mpr hd, ← Finset.card_erase_add_one hd]
    · rw [Finset.card_insert_of_not_mem hd, Finset.erase_eq_of_not_mem hd]

/-- The seen-set loop of `_process_jobs` is first-occurrence
de-duplication. -/
theorem dedupSeen_eq_removeLater (l : List String) :
    dedupSeen [] l = removeLater l := by
  have key : ∀ (l seen : List String),
      dedupSeen seen l = removeLater (l.filter (fun x => !seen.contains x)) := by
    intro l
    induction l with
    | nil => intro seen; simp [dedupSeen, removeLater]
    | cons d rest ih =>
      intro seen
      by_cases hd : d ∈ seen
      · have hc : seen.contains d = true := by
          rw [List.contains_iff_exists_mem_beq]
          exact ⟨d, hd, by simp⟩
        have h1 : dedupSeen seen (d :: rest) = dedupSeen seen rest := by
          simp [dedupSeen, hd]
        have h2 : List.filter (fun x => !seen.contains x) (d :: rest) =
            List.filter (fun x => !seen.contains x) rest := by
          simp [List.filter_cons, hc, hd]
        rw [h1, h2, ih seen]
      · have hc : seen.contains d = false := by
          rcases h : seen.contains d with _ | _
          · rfl
          · rw [List.contains_iff_exists_mem_beq] at h
            rcases h with ⟨y, hy, hbeq⟩
            rw [beq_iff_eq] at hbeq
            exact absurd (hbeq ▸ hy) hd
        have h1 : dedupSeen seen (d :: rest) = d :: dedupSeen (d :: seen) rest := by
          simp [dedupSeen, hd]
        have h2 : List.filter (fun x => !seen.contains x) (d :: rest) =
            d :: List.filter (fun x => !seen.contains x) rest := by
          simp [List.filter_cons, hc, hd]
        rw [h1, h2]
        simp only [removeLater]
        rw [ih (d :: seen), List.filter_filter]
        have h3 : List.filter (fun x => !(d :: seen).contains x) rest =
            List.filter (fun a => (a != d) && !seen.contains a) rest := by
          apply List.filter_congr
          intro x _
          simp only [List.contains_cons, Bool.not_or]
          rfl
        rw [h3]
  have h := key l []
  have h4 : l.filter (fun x => !([] : List String).contains x) = l := by
    rw [List.filter_eq_self]
    intro a _
    rfl
  rw [h, h4]

theorem removeLater_length_le (l : List String) : (removeLater l).length ≤ l.length := by
  rw [removeLater_length_card]
  apply List.toFinset_card_le

/-- Appending a diagnostic already present in the ring never increases the
de-duplicated length. -/
theorem removeLater_dequeAppend_le (q : List String) (d : String) (hd : d ∈ q) :
    (removeLater (dequeAppend 20 q d)).length ≤ (removeLater q).length := by
  rw [removeLater_length_card, removeLater_length_card]
  apply Finset.card_le_card
  intro x hx
  rw [List.mem_toFinset] at hx ⊢
  have hx' : x ∈ q ++ [d] := by
    simp only [dequeAppend] at hx
    split at hx
    · exact List.drop_subset _ _ hx
    · exact hx
  rcases List.mem_append.mp hx' with h | h
  · exact h
  · rw [List.mem_singleton] at h
    exact h ▸ hd

theorem head?_dropWhile_false (p : α → Bool) (l : List α) :
    ∀ c, (l.dropWhile p).head? = some c → p c = false := by
  induction l with
  | nil => intro c h; simp at h
  | cons a t ih =>
    intro c h
    by_cases hp : p a
    · rw [List.dropWhile_cons_of_pos hp] at h
      exact ih c h
    · rw [List.dropWhile_cons_of_neg hp] at h
      simp only [List.head?_cons, Option.some.injEq] at h
      subst h
      exact Bool.eq_false_iff.mpr hp

theorem dropWhile_eq_self_of_head (p : α → Bool) (l : List α)
    (h : ∀ c, l.head? = some c → p c = false) : l.dropWhile p = l := by
  cases l with
  | nil => rfl
  | cons a t =>
    rw [List.dropWhile_cons_of_neg]
    rw [h a rfl]
    simp

theorem getLast?_dropWhile (p : α → Bool) (l : List α) (h : l.dropWhile p ≠ []) :
    (l.dropWhile p).getLast? = l.getLast? := by
  induction l with
  | nil => simp at h
  | cons a t ih =>
    by_cases hp : p a
    · rw [List.dropWhile_cons_of_pos hp] at h ⊢
      rw [ih h]
      have ht : t ≠ [] := by
        intro he
        subst he
        simp [List.dropWhile] at h
      cases t with
      | nil => exact absurd rfl ht
      | cons b t' => simp [List.getLast?_cons_cons]
    · rw [List.dropWhile_cons_of_neg hp]

theorem stripChars_head (l : List Char) :
    ∀ c, (stripChars l).head? = some c → isPySpace c = false := by
  intro c hc
  unfold stripChars at hc
  rw [List.head?_reverse] at hc
  have hne : ((l.dropWhile isPySpace).reverse.dropWhile isPySpace) ≠ [] := by
    intro he
    rw [he] at hc
    simp at hc
  rw [getLast?_dropWhile _ _ hne, List.getLast?_reverse] at hc
  exact head?_dropWhile_false _ _ c hc

theorem stripChars_getLast (l : List Char) :
    ∀ c, (stripChars l).getLast? = some c → isPySpace c = false := by
  intro c hc
  unfold stripChars at hc
  rw [List.getLast?_reverse] at hc
  exact head?_dropWhile_false _ _ c hc

theorem stripChars_idem (l : List Char) : stripChars (stripChars l) = stripChars l := by
  have h1 : (stripChars l).dropWhile isPySpace = stripChars l :=
    dropWhile_eq_self_of_head _ _ (stripChars_head l)
  have h2 : (stripChars l).reverse.dropWhile isPySpace = (stripChars l).reverse :=
    dropWhile_eq_self_of_head _ _ (fun c hc =>
      stripChars_getLast l c (by rwa [List.head?_reverse] at hc))
  show (((stripChars l).dropWhile isPySpace).reverse.dropWhile isPySpace).reverse = stripChars l
  rw [h1, h2, List.reverse_reverse]

/-- Python `strip` is idempotent. -/
theorem pyStrip_idem (s : String) : pyStrip (pyStrip s) = pyStrip s := by
  simp only [pyStrip]
  exact congrArg String.mk (stripChars_idem s.data)

theorem allCodes_pos (jobs : Val) : ∀ c ∈ allCodes jobs, 0 < c := by
  intro c hc
  simp only [allCodes, List.mem_flatten, List.mem_map] at hc
  obtain ⟨_, ⟨e, _, rfl⟩, hc⟩ := hc
  rw [List.mem_filterMap] at hc
  obtain ⟨kv, _, hkv⟩ := hc
  simp only [codeOf] at hkv
  split at hkv
  · split at hkv
    · split at hkv
      · rw [Option.some.injEq] at hkv
        omega
      · exact absurd hkv (by simp)
    · exact absurd hkv (by simp)
  · exact absurd hkv (by simp)

theorem allDiags_stripped (jobs : Val) :
    ∀ d ∈ allDiags jobs, d ≠ "" ∧ pyStrip d = d := by
  intro d hd
  simp only [allDiags, List.mem_flatten, List.mem_map] at hd
  obtain ⟨_, ⟨e, _, rfl⟩, hd⟩ := hd
  rw [List.mem_filterMap] at hd
  obtain ⟨kv, _, hkv⟩ := hd
  simp only [diagOf] at hkv
  split at hkv
  · split at hkv
    · split at hkv
      · rw [Option.some.injEq] at hkv
        subst hkv
        refine ⟨by assumption, pyStrip_idem _⟩
      · exact absurd hkv (by simp)
    · exact absurd hkv (by simp)
  · exact absurd hkv (by simp)

/-- C6: `error_codes` is the ring of the most recent (at most 50) strictly
positive reported codes; `error_diags` is the first-occurrence
de-duplication of the ring of the most recent (at most 20) reported
diagnostics, so it has length ≤ 20, no duplicates, no blank entries, and
appending an already-present diagnostic never increases the de-duplicated
length. -/
theorem C6_error_rings_invariant (jobs : Val) :
    (_process_jobs jobs).2.1 = keepLast 50 (allCodes jobs) ∧
    (_process_jobs jobs).2.1.length ≤ 50 ∧
    (∀ c ∈ (_process_jobs jobs).2.1, 0 < c) ∧
    (_process_jobs jobs).2.2 = removeLater (keepLast 20 (allDiags jobs)) ∧
    (_process_jobs jobs).2.2.length ≤ 20 ∧
    (_process_jobs jobs).2.2.Nodup ∧
    (∀ d ∈ (_process_jobs jobs).2.2, d ≠ "" ∧ pyStrip d = d) ∧
    (∀ (q : List String) (d : String), d ∈ q →
      (removeLater (dequeAppend 20 q d)).length ≤ (removeLater q).length) := by
  obtain ⟨h1, h2⟩ := process_jobs_rings jobs
  rw [dedupSeen_eq_removeLater] at h2
  refine ⟨h1, ?_, ?_, h2, ?_, ?_, ?_, removeLater_dequeAppend_le⟩
  · rw [h1]
    exact keepLast_length_le _ _
  · rw [h1]
    intro c hc
    exact allCodes_pos _ _ (keepLast_subset _ _ _ hc)
  · rw [h2]
    calc (removeLater (keepLast 20 (allDiags jobs))).length
        ≤ (keepLast 20 (allDiags jobs)).length := removeLater_length_le _
      _ ≤ 20 := keepLast_length_le _ _
  · rw [h2]
    exact removeLater_nodup _
  · rw [h2]
    intro d hd
    rw [removeLater_mem] at hd
    exact allDiags_stripped _ _ (keepLast_subset _ _ _ hd)

theorem C6_error_rings_invariant_witness :
    ("a" ∈ ["a", "b"]) ∧
      (removeLater (dequeAppend 20 ["a", "b"] "a")).length ≤ (removeLater ["a", "b"]).length :=
  ⟨by simp, (C6_error_rings_invariant Val.none).2.2.2.2.2.2.2 ["a", "b"] "a" (by simp)⟩

theorem sleeps_shift (b : ℚ) (a k : Nat) :
    b * 2 ^ a :: (List.range k).map (fun j => b * 2 ^ (a + 1 + j)) =
      (List.range (k + 1)).map (fun j => b * 2 ^ (a + j)) := by
  rw [List.range_succ_eq_map, List.map_cons, List.map_map]
  have hhead : b * 2 ^ a = (fun j => b * 2 ^ (a + j)) 0 := by simp
  have htail : (List.range k).map (fun j => b * 2 ^ (a + 1 + j)) =
      (List.range k).map ((fun j => b * 2 ^ (a + j)) ∘ Nat.succ) := by
    apply List.map_congr_left
    intro j _
    simp only [Function.comp_apply, Nat.succ_eq_add_one]
    congr 2
    omega
  rw [htail, hhead]

theorem fetchLoop_ok (outcomes : Nat → Except FetchError (List (String × Val))) (backoff : ℚ) :
    ∀ (k attempt remaining : Nat) (d : List (String × Val)), k ≤ remaining →
      (∀ j, j < k → ∃ e, outcomes (attempt + j) = .error e) →
      outcomes (attempt + k) = .ok d →
      fetchLoop outcomes backoff attempt remaining =
        (.ok d, (List.range k).map (fun j => backoff * 2 ^ (attempt + j))) := by
  intro k
  induction k with
  | zero =>
    intro attempt remaining d _ _ hok
    rw [Nat.add_zero] at hok
    rw [fetchLoop.eq_def]
    dsimp only
    rw [hok]
    exact rfl
  | succ k ih =>
    intro attempt remaining d hle herr hok
    obtain ⟨e0, he0⟩ := herr 0 (Nat.succ_pos k)
    rw [Nat.add_zero] at he0
    cases remaining with
    | zero => omega
    | succ r =>
      rw [fetchLoop.eq_def]
      dsimp only
      rw [he0]
      show ((fetchLoop outcomes backoff (attempt + 1) r).1,
          backoff * 2 ^ attempt :: (fetchLoop outcomes backoff (attempt + 1) r).2) =
        (Except.ok d, (List.range (k + 1)).map (fun j => backoff * 2 ^ (attempt + j)))
      have hrec := ih (attempt + 1) r d (by omega)
        (fun j hj => by
          have h := herr (j + 1) (by omega)
          rwa [show attempt + (j + 1) = attempt + 1 + j by omega] at h)
        (by rw [show attempt + 1 + k = attempt + (k + 1) by omega]; exact hok)
      rw [hrec, sleeps_shift]

theorem fetchLoop_allfail (outcomes : Nat → Except FetchError (List (String × Val)))
    (backoff : ℚ) :
    ∀ (remaining attempt : Nat) (e : FetchError),
      (∀ j, j < remaining → ∃ e', outcomes (attempt + j) = .error e') →
      outcomes (attempt + remaining) = .error e →
      fetchLoop outcomes backoff attempt remaining =
        (.error e, (List.range remaining).map (fun j => backoff * 2 ^ (attempt + j))) := by
  intro remaining
  induction remaining with
  | zero =>
    intro attempt e _ hl
    rw [Nat.add_zero] at hl
    rw [fetchLoop.eq_def]
    dsimp only
    rw [hl]
    exact rfl
  | succ r ih =>
    intro attempt e herr hl
    obtain ⟨e0, he0⟩ := herr 0 (Nat.succ_pos r)
    rw [Nat.add_zero] at he0
    rw [fetchLoop.eq_def]
    dsimp only
    rw [he0]
    show ((fetchLoop outcomes backoff (attempt + 1) r).1,
        backoff * 2 ^ attempt :: (fetchLoop outcomes backoff (attempt + 1) r).2) =
      (Except.error e, (List.range (r + 1)).map (fun j => backoff * 2 ^ (attempt + j)))
    have hrec := ih (attempt + 1) e
      (fun j hj => by
        have h := herr (j + 1) (by omega)
        rwa [show attempt + (j + 1) = attempt + 1 + j by omega] at h)
      (by rw [show attempt + 1 + r = attempt + (r + 1) by omega]; exact hl)
    rw [hrec, sleeps_shift]

/-- C3: `_fetch_task_metadata` makes up to `retries + 1` sequential attempts
(default retries = 2, i.e. 3 attempts) with sleeps of `backoff * 2^attempt`
(default backoff 0.8s) between attempts; the first attempt to return an
HTTP-success JSON-object payload ends the loop with that payload, and if
every attempt fails the error of the last attempt is propagated. -/
theorem C3_fetch_retry_backoff (retries : Nat) (backoff : ℚ)
    (outcomes : Nat → Except FetchError (List (String × Val))) :
    (∀ (i : Nat) (d : List (String × Val)), i ≤ retries →
      (∀ j, j < i → ∃ e, outcomes j = .error e) → outcomes i = .ok d →
      _fetch_task_metadata retries backoff outcomes =
        (.ok d, (List.range i).map (fun j => backoff * 2 ^ j))) ∧
    (∀ e : FetchError,
      (∀ j, j < retries → ∃ e', outcomes j = .error e') → outcomes retries = .error e →
      _fetch_task_metadata retries backoff outcomes =
        (.error e, (List.range retries).map (fun j => backoff * 2 ^ j))) := by
  constructor
  · intro i d hle herr hok
    have h := fetchLoop_ok outcomes backoff i 0 retries d hle
      (fun j hj => by simpa using herr j hj) (by simpa using hok)
    simpa using h
  · intro e herr hl
    have h := fetchLoop_allfail outcomes backoff retries 0 e
      (fun j hj => by simpa using herr j hj) (by simpa using hl)
    simpa using h

/-- Witness instantiating the spec's example: with retries = 2 and the
default 0.8s backoff, failures on attempts 0 and 1 and success on attempt 2
return the payload after sleeps 0.8 and 1.6; three failures propagate the
last error. -/
theorem C3_fetch_retry_backoff_witness :
    _fetch_task_metadata 2 (4 / 5 : ℚ)
        (fun i => if i < 2 then .error (.httpError "boom") else .ok [("task", Val.none)]) =
      (.ok [("task", Val.none)], [4 / 5, 8 / 5]) ∧
    _fetch_task_metadata 2 (4 / 5 : ℚ) (fun i => .error (.valueError (toString i))) =
      (.error (.valueError "2"), [4 / 5, 8 / 5]) := by
  constructor
  · have h := (C3_fetch_retry_backoff 2 (4 / 5 : ℚ)
      (fun i => if i < 2 then .error (.httpError "boom") else .ok [("task", Val.none)])).1
      2 [("task", Val.none)] (by omega)
      (fun j hj => ⟨.httpError "boom", by simp [hj]⟩) (by simp)
    rw [h]
    norm_num [List.range_succ]
  · have h := (C3_fetch_retry_backoff 2 (4 / 5 : ℚ)
      (fun i => .error (.valueError (toString i)))).2
      (.valueError "2") (fun j hj => ⟨.valueError (toString j), rfl⟩) rfl
    rw [h]
    norm_num [List.range_succ]

namespace Mistral

/-- The `LLMConfigError` raised by `_get_client` when no credential
resolves. -/
def noKeyExc : Exc := .llmConfig "MISTRAL_API_KEY is not set in the environment."

theorem genLoop_zero (hasKey : Bool) (net : Nat → NetOutcome) (b : ℚ)
    (attempt : Nat) (lastErr : Option Exc) :
    genLoop hasKey net b attempt lastErr 0 =
      (.error (.llmProvider ("Mistral error after retries: " ++ optExcStr lastErr) lastErr),
       [], 0) := rfl

theorem genLoop_step_noKey (net : Nat → NetOutcome) (b : ℚ) (attempt : Nat)
    (lastErr : Option Exc) (n : Nat) :
    genLoop false net b attempt lastErr (n + 1) =
      ((genLoop false net b (attempt + 1) (some noKeyExc) n).1,
       b * 2 ^ attempt :: (genLoop false net b (attempt + 1) (some noKeyExc) n).2.1,
       (genLoop false net b (attempt + 1) (some noKeyExc) n).2.2) := rfl

theorem genLoop_step_ok (net : Nat → NetOutcome) (b : ℚ) (attempt : Nat)
    (lastErr : Option Exc) (n : Nat) (content : Option String)
    (h : net attempt = .ok content) :
    genLoop true net b attempt lastErr (n + 1) =
      (.ok ⟨pyStrip (content.getD "")⟩, [], 1) := by
  have hstep : genLoop true net b attempt lastErr (n + 1) =
      (match net attempt with
       | .ok content => (.ok ⟨pyStrip (content.getD "")⟩, [], 1)
       | .exn e =>
         match e with
         | .asyncioTimeout m => (.error (.llmTimeout m), [], 1)
         | e' =>
           ((genLoop true net b (attempt + 1) (some e') n).1,
            b * 2 ^ attempt :: (genLoop true net b (attempt + 1) (some e') n).2.1,
            (genLoop true net b (attempt + 1) (some e') n).2.2 + 1)) := rfl
  rw [hstep, h]

theorem genLoop_step_timeout (net : Nat → NetOutcome) (b : ℚ) (attempt : Nat)
    (lastErr : Option Exc) (n : Nat) (msg : String)
    (h : net attempt = .exn (.asyncioTimeout msg)) :
    genLoop true net b attempt lastErr (n + 1) = (.error (.llmTimeout msg), [], 1) := by
  have hstep : genLoop true net b attempt lastErr (n + 1) =
      (match net attempt with
       | .ok content => (.ok ⟨pyStrip (content.getD "")⟩, [], 1)
       | .exn e =>
         match e with
         | .asyncioTimeout m => (.error (.llmTimeout m), [], 1)
         | e' =>
           ((genLoop true net b (attempt + 1) (some e') n).1,
            b * 2 ^ attempt :: (genLoop true net b (attempt + 1) (some e') n).2.1,
            (genLoop true net b (attempt + 1) (some e') n).2.2 + 1)) := rfl
  rw [hstep, h]

theorem genLoop_step_exn (net : Nat → NetOutcome) (b : ℚ) (attempt : Nat)
    (lastErr : Option Exc) (n : Nat) (e : Exc) (hNotT : e.isAsyncTimeout = false)
    (h : net attempt = .exn e) :
    genLoop true net b attempt lastErr (n + 1) =
      ((genLoop true net b (attempt + 1) (some e) n).1,
       b * 2 ^ attempt :: (genLoop true net b (attempt + 1) (some e) n).2.1,
       (genLoop true net b (attempt + 1) (some e) n).2.2 + 1) := by
  have hstep : genLoop true net b attempt lastErr (n + 1) =
      (match net attempt with
       | .ok content => (.ok ⟨pyStrip (content.getD "")⟩, [], 1)
       | .exn e =>
         match e with
         | .asyncioTimeout m => (.error (.llmTimeout m), [], 1)
         | e' =>
           ((genLoop true net b (attempt + 1) (some e') n).1,
            b * 2 ^ attempt :: (genLoop true net b (attempt + 1) (some e') n).2.1,
            (genLoop true net b (attempt + 1) (some e') n).2.2 + 1)) := rfl
  rw [hstep, h]
  cases e with
  | asyncioTimeout m => simp [Exc.isAsyncTimeout] at hNotT
  | llmConfig m => rfl
  | llmTimeout m => rfl
  | llmProvider m cause => rfl
  | other m => rfl

theorem genLoop_noKey (net : Nat → NetOutcome) (b : ℚ) :
    ∀ (n attempt : Nat) (lastErr : Option Exc), 0 < n →
      genLoop false net b attempt lastErr n =
        (.error (.llmProvider ("Mistral error after retries: " ++ excStr noKeyExc)
            (some noKeyExc)),
         (List.range n).map (fun j => b * 2 ^ (attempt + j)), 0) := by
  intro n
  induction n with
  | zero => intro attempt lastErr h; omega
  | succ m ih =>
    intro attempt lastErr _
    rw [genLoop_step_noKey]
    cases m with
    | zero =>
      rw [genLoop_zero]
      simp [optExcStr, List.range_succ]
    | succ m' =>
      rw [ih (attempt + 1) (some noKeyExc) (Nat.succ_pos m')]
      rw [sleeps_shift]

theorem genLoop_key_ok (net : Nat → NetOutcome) (b : ℚ) :
    ∀ (k m attempt : Nat) (lastErr : Option Exc) (content : Option String), k ≤ m →
      (∀ j, j < k → ∃ e, net (attempt + j) = .exn e ∧ e.isAsyncTimeout = false) →
      net (attempt + k) = .ok content →
      genLoop true net b attempt lastErr (m + 1) =
        (.ok ⟨pyStrip (content.getD "")⟩,
         (List.range k).map (fun j => b * 2 ^ (attempt + j)), k + 1) := by
  intro k
  induction k with
  | zero =>
    intro m attempt lastErr content _ _ hok
    rw [Nat.add_zero] at hok
    rw [genLoop_step_ok _ _ _ _ _ _ hok]
    rfl
  | succ k ih =>
    intro m attempt lastErr content hle herr hok
    obtain ⟨e0, he0, he0t⟩ := herr 0 (Nat.succ_pos k)
    rw [Nat.add_zero] at he0
    cases m with
    | zero => omega
    | succ m' =>
      rw [genLoop_step_exn _ _ _ _ _ _ he0t he0]
      have hrec := ih m' (attempt + 1) (some e0) content (by omega)
        (fun j hj => by
          have h := herr (j + 1) (by omega)
          rwa [show attempt + (j + 1) = attempt + 1 + j by omega] at h)
        (by rw [show attempt + 1 + k = attempt + (k + 1) by omega]; exact hok)
      rw [hrec, sleeps_shift]

theorem genLoop_key_timeout (net : Nat → NetOutcome) (b : ℚ) :
    ∀ (k m attempt : Nat) (lastErr : Option Exc) (msg : String), k ≤ m →
      (∀ j, j < k → ∃ e, net (attempt + j) = .exn e ∧ e.isAsyncTimeout = false) →
      net (attempt + k) = .exn (.asyncioTimeout msg) →
      genLoop true net b attempt lastErr (m + 1) =
        (.error (.llmTimeout msg),
         (List.range k).map (fun j => b * 2 ^ (attempt + j)), k + 1) := by
  intro k
  induction k with
  | zero =>
    intro m attempt lastErr msg _ _ htm
    rw [Nat.add_zero] at htm
    rw [genLoop_step_timeout _ _ _ _ _ _ htm]
    rfl
  | succ k ih =>
    intro m attempt lastErr msg hle herr htm
    obtain ⟨e0, he0, he0t⟩ := herr 0 (Nat.succ_pos k)
    rw [Nat.add_zero] at he0
    cases m with
    | zero => omega
    | succ m' =>
      rw [genLoop_step_exn _ _ _ _ _ _ he0t he0]
      have hrec := ih m' (attempt + 1) (some e0) msg (by omega)
        (fun j hj => by
          have h := herr (j + 1) (by omega)
          rwa [show attempt + (j + 1) = attempt + 1 + j by omega] at h)
        (by rw [show attempt + 1 + k = attempt + (k + 1) by omega]; exact htm)
      rw [hrec, sleeps_shift]

theorem genLoop_key_allfail (net : Nat → NetOutcome) (b : ℚ) :
    ∀ (n attempt : Nat) (lastErr : Option Exc) (e : Nat → Exc), 0 < n →
      (∀ j, j < n → net (attempt + j) = .exn (e (attempt + j)) ∧
        (e (attempt + j)).isAsyncTimeout = false) →
      genLoop true net b attempt lastErr n =
        (.error (.llmProvider
            ("Mistral error after retries: " ++ excStr (e (attempt + n - 1)))
            (some (e (attempt + n - 1)))),
         (List.range n).map (fun j => b * 2 ^ (attempt + j)), n) := by
  intro n
  induction n with
  | zero => intro attempt lastErr e h; omega
  | succ m ih =>
    intro attempt lastErr e _ herr
    obtain ⟨he0, he0t⟩ := herr 0 (Nat.succ_pos m)
    rw [Nat.add_zero] at he0 he0t
    rw [genLoop_step_exn _ _ _ _ _ _ he0t he0]
    cases m with
    | zero =>
      rw [genLoop_zero]
      simp [optExcStr, List.range_succ]
    | succ m' =>
      have hrec := ih (attempt + 1) (some (e attempt)) e (Nat.succ_pos m')
        (fun j hj => by
          have h := herr (j + 1) (by omega)
          rwa [show attempt + (j + 1) = attempt + 1 + j by omega] at h)
      rw [hrec, sleeps_shift]
      have hidx : attempt + 1 + (m' + 1) - 1 = attempt + (m' + 1 + 1) - 1 := by omega
      rw [hidx]

/-- C1 counterexample: with no credential in the environment (and a
non-empty model id), a concrete `generate` call does not fail with
`ConfigError` and is retried — it performs three attempts with backoff
sleeps 1, 2, 4 and fails with `ProviderError` wrapping the config error
(though it performs zero network calls). -/
theorem C1_no_credential_counterexample :
    Mistral.generate ⟨"mistral-large-latest", Option.none⟩ (fun _ => Option.none) 3 1
        (fun _ => .ok (some "hi")) =
      (.error (.llmProvider
          ("Mistral error after retries: " ++ Mistral.excStr Mistral.noKeyExc)
          (some Mistral.noKeyExc)),
       [1, 2, 4], 0) ∧
    (Mistral.generate ⟨"mistral-large-latest", Option.none⟩ (fun _ => Option.none) 3 1
        (fun _ => .ok (some "hi"))).2.1 ≠ [] := by
  have hgen : Mistral.generate ⟨"mistral-large-latest", Option.none⟩ (fun _ => Option.none) 3 1
      (fun _ => .ok (some "hi")) =
      Mistral.genLoop false (fun _ => .ok (some "hi")) 1 0 Option.none 3 := rfl
  have h := Mistral.genLoop_noKey (fun _ => .ok (some "hi")) 1 3 0 Option.none (by omega)
  rw [hgen, h]
  norm_num [List.range_succ]
  simp

/-- C1 (amended): for every `generate` call with no credential resolvable
from the environment and a non-empty model id, zero network calls are
performed, but the per-attempt `LLMConfigError` is caught by the generic
`except Exception` retry handler: all `tries` attempts are consumed with
backoff sleeps `backoff * 2^i`, and the call fails with `LLMProviderError`
wrapping the `LLMConfigError` rather than failing immediately with
`ConfigError`. -/
theorem C1_no_credential_behavior (spec : Mistral.ModelSpec) (env : String → Option String)
    (tries : Nat) (backoff : ℚ) (net : Nat → Mistral.NetOutcome)
    (hm : spec.model ≠ "") (hk : Mistral.resolveApiKey env spec = Option.none)
    (ht : 0 < tries) :
    Mistral.generate spec env tries backoff net =
      (.error (.llmProvider
          ("Mistral error after retries: " ++ Mistral.excStr Mistral.noKeyExc)
          (some Mistral.noKeyExc)),
       (List.range tries).map (fun j => backoff * 2 ^ j), 0) := by
  unfold Mistral.generate
  rw [if_neg hm, hk, Option.isSome_none]
  have h := Mistral.genLoop_noKey net backoff tries 0 Option.none ht
  simpa using h

theorem C1_no_credential_behavior_witness :
    Mistral.generate ⟨"mistral-small", some "MY_KEY"⟩ (fun _ => Option.none) 2 1
        (fun _ => .exn (.other "never reached")) =
      (.error (.llmProvider
          ("Mistral error after retries: " ++ Mistral.excStr Mistral.noKeyExc)
          (some Mistral.noKeyExc)),
       [1, 2], 0) := by
  have h := C1_no_credential_behavior ⟨"mistral-small", some "MY_KEY"⟩ (fun _ => Option.none)
    2 1 (fun _ => .exn (.other "never reached")) (by simp) rfl (by omega)
  rw [h]
  norm_num [List.range_succ]

/-- C8: with a credential and non-empty model, `generate` makes up to
`tries` attempts (default 3): a success at attempt `k` (after `k`
non-timeout failures, each followed by a sleep of `b * 2^j`, default base
1.0s) returns the whitespace-trimmed text after `k + 1` network calls; an
`asyncio.TimeoutError` at attempt `k` fails immediately as
`LLMTimeoutError` with no further attempts; and `tries` non-timeout
failures exhaust the loop and raise `LLMProviderError` wrapping the last
underlying error. -/
theorem C8_generate_retry_policy (spec : Mistral.ModelSpec) (env : String → Option String)
    (tries : Nat) (b : ℚ) (net : Nat → Mistral.NetOutcome)
    (hm : spec.model ≠ "") (hk : (Mistral.resolveApiKey env spec).isSome = true) :
    (∀ (k : Nat) (content : Option String), k < tries →
      (∀ j, j < k → ∃ e, net j = .exn e ∧ e.isAsyncTimeout = false) →
      net k = .ok content →
      Mistral.generate spec env tries b net =
        (.ok ⟨pyStrip (content.getD "")⟩,
         (List.range k).map (fun j => b * 2 ^ j), k + 1)) ∧
    (∀ (k : Nat) (msg : String), k < tries →
      (∀ j, j < k → ∃ e, net j = .exn e ∧ e.isAsyncTimeout = false) →
      net k = .exn (.asyncioTimeout msg) →
      Mistral.generate spec env tries b net =
        (.error (.llmTimeout msg), (List.range k).map (fun j => b * 2 ^ j), k + 1)) ∧
    (∀ e : Nat → Mistral.Exc, 0 < tries →
      (∀ j, j < tries → net j = .exn (e j) ∧ (e j).isAsyncTimeout = false) →
      Mistral.generate spec env tries b net =
        (.error (.llmProvider
            ("Mistral error after retries: " ++ Mistral.excStr (e (tries - 1)))
            (some (e (tries - 1)))),
         (List.range tries).map (fun j => b * 2 ^ j), tries)) := by
  have hgen : Mistral.generate spec env tries b net =
      Mistral.genLoop true net b 0 Option.none tries := by
    unfold Mistral.generate
    rw [if_neg hm, hk]
  refine ⟨?_, ?_, ?_⟩
  · intro k content hlt herr hok
    obtain ⟨m, rfl⟩ : ∃ m, tries = m + 1 := ⟨tries - 1, by omega⟩
    rw [hgen]
    have h := Mistral.genLoop_key_ok net b k m 0 Option.none content (by omega)
      (fun j hj => by simpa using herr j hj) (by simpa using hok)
    simpa using h
  · intro k msg hlt herr htm
    obtain ⟨m, rfl⟩ : ∃ m, tries = m + 1 := ⟨tries - 1, by omega⟩
    rw [hgen]
    have h := Mistral.genLoop_key_timeout net b k m 0 Option.none msg (by omega)
      (fun j hj => by simpa using herr j hj) (by simpa using htm)
    simpa using h
  · intro e ht herr
    rw [hgen]
    have h := Mistral.genLoop_key_allfail net b tries 0 Option.none e ht
      (fun j hj => by simpa using herr j hj)
    simpa using h

theorem C8_generate_retry_policy_witness :
    Mistral.generate ⟨"mistral-small", Option.none⟩ (fun _ => some "a-key") 3 1
        (fun i => if i = 0 then .exn (.other "boom") else .ok (some " hi ")) =
      (.ok ⟨pyStrip ((some " hi ").getD "")⟩,
       (List.range 1).map (fun j => (1 : ℚ) * 2 ^ j), 1 + 1) :=
  (C8_generate_retry_policy ⟨"mistral-small", Option.none⟩ (fun _ => some "a-key") 3 1
      (fun i => if i = 0 then .exn (.other "boom") else .ok (some " hi "))
      (by simp) rfl).1 1 (some " hi ") (by omega)
    (fun j hj => by
      have hj0 : j = 0 := by omega
      subst hj0
      exact ⟨.other "boom", rfl, rfl⟩)
    rfl

end Mistral

theorem matchTaskAt_bound (cs : List Char) (i n : Nat) (h : matchTaskAt cs i = some n) :
    i < cs.length := by
  by_contra hge
  push_neg at hge
  simp only [matchTaskAt, List.drop_eq_nil_of_le hge] at h
  simp at h

theorem searchAux_found (cs : List Char) :
    ∀ (fuel i n : Nat), searchTaskAux cs i fuel = some n →
      ∃ k, i ≤ k ∧ k < i + fuel ∧ matchTaskAt cs k = some n ∧
        ∀ j, i ≤ j → j < k → matchTaskAt cs j = Option.none := by
  intro fuel
  induction fuel with
  | zero => intro i n h; simp [searchTaskAux] at h
  | succ f ih =>
    intro i n h
    rw [searchTaskAux] at h
    cases hm : matchTaskAt cs i with
    | some m =>
      rw [hm] at h
      rw [Option.some.injEq] at h
      subst h
      exact ⟨i, Nat.le_refl i, by omega, hm, fun j hij hji => by omega⟩
    | none =>
      rw [hm] at h
      obtain ⟨k, hik, hkf, hk, hnone⟩ := ih (i + 1) n h
      refine ⟨k, by omega, by omega, hk, fun j hij hjk => ?_⟩
      rcases Nat.eq_or_lt_of_le hij with rfl | hlt
      · exact hm
      · exact hnone j (by omega) hjk

theorem searchAux_finds (cs : List Char) :
    ∀ (fuel i k n : Nat), i ≤ k → k < i + fuel → matchTaskAt cs k = some n →
      (∀ j, i ≤ j → j < k → matchTaskAt cs j = Option.none) →
      searchTaskAux cs i fuel = some n := by
  intro fuel
  induction fuel with
  | zero => intro i k n hik hkf _ _; omega
  | succ f ih =>
    intro i k n hik hkf hk hnone
    rw [searchTaskAux]
    rcases Nat.eq_or_lt_of_le hik with rfl | hlt
    · rw [hk]
    · rw [hnone i (Nat.le_refl i) hlt]
      exact ih (i + 1) k n (by omega) (by omega) hk (fun j hij hjk => hnone j (by omega) hjk)

/-- C9: `extract_task_id_from_text` returns the integer captured by the
leftmost position where `\btask\s+(\d+)\b` (case-insensitive) matches, and
returns `None` — it never raises — when no position matches, including for
the empty string and a `None`-like falsy input. -/
theorem C9_extract_task_id (t : Option String) :
    (∀ n : Nat, extract_task_id_from_text t = some n ↔
      ∃ i, matchTaskAt (t.getD "").data i = some n ∧
        ∀ j, j < i → matchTaskAt (t.getD "").data j = Option.none) ∧
    extract_task_id_from_text Option.none = Option.none ∧
    extract_task_id_from_text (some "") = Option.none := by
  refine ⟨?_, rfl, rfl⟩
  intro n
  show searchTaskAux (t.getD "").data 0 ((t.getD "").data.length + 1) = some n ↔ _
  constructor
  · intro h
    obtain ⟨k, _, _, hk, hnone⟩ := searchAux_found (t.getD "").data _ 0 n h
    exact ⟨k, hk, fun j hj => hnone j (Nat.zero_le j) hj⟩
  · rintro ⟨i, hi, hnone⟩
    exact searchAux_finds (t.getD "").data _ 0 i n (Nat.zero_le i)
      (by have := matchTaskAt_bound _ _ _ hi; omega) hi
      (fun j _ hj => hnone j hj)

theorem C9_extract_task_id_witness :
    extract_task_id_from_text (some "what about task 123?") = some 123 :=
  ((C9_extract_task_id (some "what about task 123?")).1 123).mpr
    ⟨11, by decide, by decide⟩

/-- C7: when the payload's `task` field is absent/empty/wrong-shaped and its
`jobs` field is absent or not a non-empty list, the rendered tool output is
exactly the not-found line followed by the payload debug dump (top-level
keys plus a pretty-printed JSON snippet of at most 5000 characters): it
starts with "Task {id} was not found", includes the monitor URL, and
contains no status/job-count/error sections. -/
theorem C7_not_found_render (env : String → Option String) (task_id : Int)
    (payload : List (String × Val)) (include_raw : Bool)
    (hT : hasTaskBlock payload = false) (hJ : hasJobsBlock payload = false) :
    renderCall env task_id payload include_raw =
      String.intercalate "\n"
        (("Task " ++ toString task_id ++ " was not found (no metadata returned). Monitor: " ++
            (_summarize_task env task_id payload).monitor_url) ::
          _format_payload_debug payload) ∧
    (∃ rest, renderCall env task_id payload include_raw =
      "Task " ++ toString task_id ++ " was not found" ++ rest) ∧
    (∃ a b, renderCall env task_id payload include_raw =
      a ++ (_summarize_task env task_id payload).monitor_url ++ b) ∧
    (pyTake (pyJsonDumpsIndent2 (.dict payload)) 5000).data.length ≤ 5000 := by
  have h1 : renderCall env task_id payload include_raw =
      String.intercalate "\n"
        (("Task " ++ toString task_id ++ " was not found (no metadata returned). Monitor: " ++
            (_summarize_task env task_id payload).monitor_url) ::
          _format_payload_debug payload) := by
    simp [renderCall, hT, hJ]
  have hdbg : _format_payload_debug payload =
      ["Payload keys: " ++ pyStr (.list ((pySorted strLt (payload.map Prod.fst)).map Val.str)),
       "\nRaw payload (snippet):\n", pyTake (pyJsonDumpsIndent2 (.dict payload)) 5000] := rfl
  have hsplit : (" was not found (no metadata returned). Monitor: " : String) =
      " was not found" ++ " (no metadata returned). Monitor: " := by decide
  refine ⟨h1, ?_, ?_, ?_⟩
  · rw [h1, hdbg]
    refine ⟨" (no metadata returned). Monitor: " ++
      (_summarize_task env task_id payload).monitor_url ++ "\n" ++
      ("Payload keys: " ++ pyStr (.list ((pySorted strLt (payload.map Prod.fst)).map Val.str))) ++
      "\n" ++ "\nRaw payload (snippet):\n" ++ "\n" ++
      pyTake (pyJsonDumpsIndent2 (.dict payload)) 5000, ?_⟩
    rw [show ∀ a b c d : String, String.intercalate "\n" [a, b, c, d] =
      ((a ++ "\n" ++ b) ++ "\n" ++ c) ++ "\n" ++ d from fun a b c d => rfl]
    rw [hsplit]
    simp only [String.append_assoc]
  · rw [h1, hdbg]
    refine ⟨"Task " ++ toString task_id ++ " was not found (no metadata returned). Monitor: ",
      "\n" ++
      ("Payload keys: " ++ pyStr (.list ((pySorted strLt (payload.map Prod.fst)).map Val.str))) ++
      "\n" ++ "\nRaw payload (snippet):\n" ++ "\n" ++
      pyTake (pyJsonDumpsIndent2 (.dict payload)) 5000, ?_⟩
    rw [show ∀ a b c d : String, String.intercalate "\n" [a, b, c, d] =
      ((a ++ "\n" ++ b) ++ "\n" ++ c) ++ "\n" ++ d from fun a b c d => rfl]
    simp only [String.append_assoc]
  · show (List.take 5000 (pyJsonDumpsIndent2 (.dict payload)).data).length ≤ 5000
    apply List.length_take_le

/-- Witness: the spec's `payload = {}` example, rendered. -/
theorem C7_not_found_render_witness :
    renderCall (fun _ => Option.none) 123 [] false =
      "Task 123 was not found (no metadata returned). Monitor: https://bigpanda.cern.ch/task/123/\nPayload keys: []\n\nRaw payload (snippet):\n\n{}" ∧
    (pyTake (pyJsonDumpsIndent2 (.dict [])) 5000).data.length ≤ 5000 := by
  have h := C7_not_found_render (fun _ => Option.none) 123 [] false rfl rfl
  exact ⟨by rw [h.1]; rfl, h.2.2.2⟩

end AskPanda
